import Mathlib

/-!
Shallow embedding of `src/main.py` (data-integrity-scanner).

The source works on a pandas DataFrame.  We embed a DataFrame as a `Table`:
a row count together with an ordered list of named `Column`s, each tagged
with whether its dtype is numeric (which is what
`select_dtypes(include=[np.number])` inspects) and holding a list of cells.
A cell is a rational number, a string, or the absent marker (NaN/None).
Numeric values are embedded as `ℚ` (idealised, exact arithmetic in place of
IEEE doubles).

The four core functions `check_missing_values`, `check_duplicates`,
`check_outliers` and `generate_report` are translated line by line; comments
on each definition point to the construct of the source it embeds.
-/

namespace Scanner

/-- A pandas cell: a numeric value, a string value, or an absent entry
(NaN/None).  Pandas `DataFrame.duplicated` compares rows by hashing, under
which absent entries compare equal to each other; structural equality on
`Cell` mirrors exactly that runtime behaviour. -/
inductive Cell where
  | num (q : ℚ)
  | str (s : String)
  | absent
deriving DecidableEq

/-- A DataFrame column: name, dtype tag (`dtypeNum = true` iff
`select_dtypes(include=[np.number])` selects it), and its cells. -/
structure Column where
  name : String
  dtypeNum : Bool
  cells : List Cell
deriving DecidableEq

/-- A DataFrame: a row count and the ordered list of columns. -/
structure Table where
  nrows : ℕ
  cols : List Column
deriving DecidableEq

/-- Well-formedness of a `Table` (the §3 invariant): every column has
exactly `nrows` cells. -/
def WF (t : Table) : Prop := ∀ c ∈ t.cols, c.cells.length = t.nrows

/-- The rows of a table, each a tuple of cells taken across the columns in
column order; row `j` pairs the cells at position `j` of every column.
This is the row view that `data.duplicated()` compares. -/
def rows (t : Table) : List (List Cell) :=
  (List.range t.nrows).map (fun j => t.cols.map (fun c => c.cells.getD j Cell.absent))

/-- Embeds `data.isnull().sum()` (line 41): one `(column, count)` entry per
column in column order, the count being the number of absent cells. -/
def check_missing_values (t : Table) : List (String × ℕ) :=
  t.cols.map (fun c => (c.name, c.cells.count Cell.absent))

/-- Accumulator loop of `data.duplicated().sum()` (line 55): a row equal to
some previously seen row contributes 1, first occurrences contribute 0. -/
def duplicatedGo (seen : List (List Cell)) : List (List Cell) → ℕ
  | [] => 0
  | r :: rs => (if r ∈ seen then 1 else 0) + duplicatedGo (r :: seen) rs

/-- Embeds `check_duplicates` (lines 45–57): `data.duplicated().sum()`. -/
def check_duplicates (t : Table) : ℕ :=
  duplicatedGo [] (rows t)

/-- Embeds `data[col].dropna()` on a numeric column: the reduced sequence,
keeping the numeric values in order and dropping absent entries. -/
def dropna (c : Column) : List ℚ :=
  c.cells.filterMap (fun x => match x with | Cell.num q => some q | _ => none)

/-- Arithmetic mean used by `scipy.stats.zscore` (empty list gives 0, the
ℚ-convention for division by zero; that case never produces outliers). -/
def mean (xs : List ℚ) : ℚ := xs.sum / (xs.length : ℚ)

/-- Sum of squared deviations from the mean; `scipy.stats.zscore` divides by
`n` (ddof = 0), so the population variance is `sumSqDev xs / xs.length`. -/
def sumSqDev (xs : List ℚ) : ℚ :=
  (xs.map (fun x => (x - mean xs) ^ 2)).sum

/-- One comparison `np.abs(stats.zscore(xs)) > z_thresh` of line 72/73, for
the value `x` of the reduced sequence `xs`.  With σ the population standard
deviation `sqrt (sumSqDev xs / n)`, the float code flags `x` iff σ > 0 and
`|x - mean xs| / σ > thresh` (when σ = 0 the z-score is NaN = 0/0 and every
NaN comparison is false).  To stay in decidable ℚ we express that condition
without square roots: σ > 0 iff `0 < sumSqDev xs`, and, given σ > 0,
`|z| > thresh` holds iff `thresh < 0` or
`thresh ^ 2 * sumSqDev xs < (x - mean xs) ^ 2 * n`
(squaring is an equivalence for `thresh ≥ 0`; for `thresh < 0` the
comparison `|z| > thresh` is always true).  The equivalence with the √-form
is proved in `abs_div_sqrt_lt_iff`. -/
def isFlagged (xs : List ℚ) (thresh : ℚ) (x : ℚ) : Bool :=
  decide (0 < sumSqDev xs) &&
    (decide (thresh < 0) ||
      decide (thresh ^ 2 * sumSqDev xs < (x - mean xs) ^ 2 * (xs.length : ℚ)))

/-- Embeds `np.where(np.abs(stats.zscore(data[col].dropna())) > z_thresh)[0]`
(lines 72–73): the positions, in the REDUCED sequence, whose z-score exceeds
the threshold in absolute value.  `np.where` on a 1-d array returns positions
into that array, in ascending order. -/
def colOutlierIdxs (c : Column) (thresh : ℚ) : List ℕ :=
  let xs := dropna c
  (List.range xs.length).filter (fun i => isFlagged xs thresh (xs.getD i 0))

/-- Embeds `check_outliers` (lines 59–77): iterate over the numeric columns,
and record `col ↦ outlier_indices` only when `len(outlier_indices) > 0`
(line 74).  The dict preserves insertion order, hence a list of pairs.
The source body contains no validation of `z_thresh` and no raise
statement, so the embedding is a total function. -/
def check_outliers (t : Table) (thresh : ℚ) : List (String × List ℕ) :=
  (t.cols.filter (fun c => c.dtypeNum)).filterMap (fun c =>
    let idxs := colOutlierIdxs c thresh
    if 0 < idxs.length then some (c.name, idxs) else none)

/-- Models `pandas.Series.to_string` on the missing-value series (line 94):
one `name value` line per entry (column alignment simplified to a fixed
separator, which no claim depends on). -/
def seriesToString (s : List (String × ℕ)) : String :=
  String.intercalate "\n" (s.map (fun p => p.1 ++ "    " ++ toString p.2))

/-- Embeds `generate_report` (lines 79–100): the report string built by the
chain of `+=` on lines 91–98, sections in the fixed order Missing Values,
Duplicate Rows, Outliers. -/
def generate_report (missing_values : List (String × ℕ)) (duplicate_count : ℕ)
    (outliers : List (String × List ℕ)) : String :=
  "Data Integrity Report\n" ++ "=====================\n"
    ++ "Missing Values:\n" ++ seriesToString missing_values ++ "\n\n"
    ++ "Duplicate Rows: " ++ toString duplicate_count ++ "\n\n"
    ++ "Outliers:\n"
    ++ String.join (outliers.map (fun p =>
         p.1 ++ ": " ++ toString p.2.length ++ " outliers at indices "
           ++ toString p.2 ++ "\n"))

/-- Modelled from the spec (§4.3 steps 2–3): the outlier rule with the
SAMPLE standard deviation (ddof = 1), i.e. σ² = sumSqDev xs / (n - 1),
stated for comparison with the source's `isFlagged` (which divides by `n`).
The reduced sequence must have at least 2 values and nonzero deviation,
else the column contributes nothing. -/
def specSampleFlagged (xs : List ℚ) (thresh : ℚ) (x : ℚ) : Bool :=
  decide (2 ≤ xs.length) && decide (0 < sumSqDev xs) &&
    (decide (thresh < 0) ||
      decide (thresh ^ 2 * sumSqDev xs < (x - mean xs) ^ 2 * ((xs.length : ℚ) - 1)))

/-- Modelled from the spec: `check_outliers` as §4.3 words it, with the
sample standard deviation in place of the population one. -/
def spec_check_outliers_sample (t : Table) (thresh : ℚ) : List (String × List ℕ) :=
  (t.cols.filter (fun c => c.dtypeNum)).filterMap (fun c =>
    let xs := dropna c
    let idxs := (List.range xs.length).filter
      (fun i => specSampleFlagged xs thresh (xs.getD i 0))
    if 0 < idxs.length then some (c.name, idxs) else none)

/-- Concrete data: a numeric column with a leading absent entry, ten zeros
and an extreme value 100 whose ORIGINAL row index is 11 (reduced position
10). -/
def colA_nan : Column :=
  ⟨"A", true, [Cell.absent, Cell.num 0, Cell.num 0, Cell.num 0, Cell.num 0,
    Cell.num 0, Cell.num 0, Cell.num 0, Cell.num 0, Cell.num 0, Cell.num 0,
    Cell.num 100]⟩

/-- Concrete data: a 12-row table holding `colA_nan`. -/
def tbl_nan : Table := ⟨12, [colA_nan]⟩

/-- Concrete data: nine zeros and one far value 10; its population z-score
is 3 while its sample z-score is 9/√10 ≈ 2.846, so threshold 2.9 separates
the two standard-deviation conventions. -/
def colA_ten : Column :=
  ⟨"A", true, [Cell.num 0, Cell.num 0, Cell.num 0, Cell.num 0, Cell.num 0,
    Cell.num 0, Cell.num 0, Cell.num 0, Cell.num 0, Cell.num 10]⟩

/-- Concrete data: a 10-row table holding `colA_ten`. -/
def tbl_ten : Table := ⟨10, [colA_ten]⟩

/-- Concrete data: two distinct values. -/
def colA_two : Column := ⟨"A", true, [Cell.num 1, Cell.num 2]⟩

/-- Concrete data: a 2-row table holding `colA_two`. -/
def tbl_two : Table := ⟨2, [colA_two]⟩

/-- Concrete data: a constant column (zero standard deviation). -/
def colA_const : Column := ⟨"A", true, [Cell.num 1, Cell.num 1]⟩

/-- Concrete data: a 2-row table holding `colA_const`. -/
def tbl_const : Table := ⟨2, [colA_const]⟩

/-- Concrete data: two rows that agree everywhere, including an absent
entry at the same position in each. -/
def tbl_nanrows : Table :=
  ⟨2, [⟨"A", true, [Cell.absent, Cell.absent]⟩,
       ⟨"B", true, [Cell.num 1, Cell.num 1]⟩]⟩

/-- Concrete data: a one-row table. -/
def tbl_one : Table := ⟨1, [⟨"A", true, [Cell.num 1]⟩]⟩

/-! ### Structural lemmas about `check_outliers` -/

/-- Membership in the outlier report: `(name, idxs)` is an entry iff some
numeric column bears that name and produces exactly that nonempty index
list. -/
lemma mem_check_outliers {t : Table} {thresh : ℚ} {nm : String} {idxs : List ℕ} :
    (nm, idxs) ∈ check_outliers t thresh ↔
      ∃ c, c ∈ t.cols ∧ c.dtypeNum = true ∧ c.name = nm ∧
        colOutlierIdxs c thresh = idxs ∧ idxs ≠ [] := by
  unfold check_outliers
  simp only [List.mem_filterMap, List.mem_filter]
  constructor
  · rintro ⟨c, ⟨hc, hnum⟩, hf⟩
    by_cases h : 0 < (colOutlierIdxs c thresh).length
    · rw [if_pos h] at hf
      obtain ⟨hn, hi⟩ := Prod.mk.injEq .. ▸ Option.some.injEq .. ▸ hf
      exact ⟨c, hc, hnum, hn, hi, hi ▸ List.length_pos.mp h⟩
    · rw [if_neg h] at hf
      exact absurd hf (by simp)
  · rintro ⟨c, hc, hnum, rfl, rfl, hne⟩
    exact ⟨c, ⟨hc, hnum⟩, by rw [if_pos (List.length_pos.mpr hne)]⟩

/-- The sum of squared deviations of an empty sequence is zero. -/
lemma sumSqDev_nil : sumSqDev [] = 0 := by simp [sumSqDev]

/-- The sum of squared deviations of a one-element sequence is zero. -/
lemma sumSqDev_singleton (x : ℚ) : sumSqDev [x] = 0 := by
  simp [sumSqDev, mean]

/-- With fewer than two values the sum of squared deviations vanishes
(scipy's z-scores are then NaN, so no comparison succeeds). -/
lemma sumSqDev_eq_zero_of_len_le_one {xs : List ℚ} (h : xs.length ≤ 1) :
    sumSqDev xs = 0 := by
  match xs with
  | [] => exact sumSqDev_nil
  | [x] => exact sumSqDev_singleton x
  | x :: y :: rest => simp at h

/-- A column whose reduced sequence has zero sum of squared deviations
(zero standard deviation, including the fewer-than-2-values case) yields
no outlier positions: every z-score is NaN and NaN comparisons are false. -/
lemma colOutlierIdxs_eq_nil {c : Column} {thresh : ℚ}
    (h : ¬ 0 < sumSqDev (dropna c)) : colOutlierIdxs c thresh = [] := by
  unfold colOutlierIdxs
  refine List.filter_eq_nil_iff.mpr fun i _ => ?_
  simp [isFlagged, h]

/-- With a negative threshold every position of a column with nonzero
deviation is flagged, since `|z| > thresh` is then always true. -/
lemma colOutlierIdxs_eq_range {c : Column} {thresh : ℚ}
    (hthresh : thresh < 0) (hS : 0 < sumSqDev (dropna c)) :
    colOutlierIdxs c thresh = List.range (dropna c).length := by
  unfold colOutlierIdxs
  refine List.filter_eq_self.mpr fun i _ => ?_
  simp [isFlagged, hS, hthresh]

/-- Unfolding membership in a column's outlier-position list. -/
lemma mem_colOutlierIdxs {c : Column} {thresh : ℚ} {i : ℕ} :
    i ∈ colOutlierIdxs c thresh ↔
      i < (dropna c).length ∧
        isFlagged (dropna c) thresh ((dropna c).getD i 0) = true := by
  unfold colOutlierIdxs
  simp [List.mem_filter, List.mem_range]

/-- For a positive threshold, the flag comparison is the squared z-score
test over a column with nonzero deviation. -/
lemma isFlagged_iff {xs : List ℚ} {thresh x : ℚ} (ht : 0 < thresh) :
    isFlagged xs thresh x = true ↔
      0 < sumSqDev xs ∧
        thresh ^ 2 * sumSqDev xs < (x - mean xs) ^ 2 * (xs.length : ℚ) := by
  have h : ¬ thresh < 0 := not_lt.mpr ht.le
  simp [isFlagged, h]

/-- An empty reduced sequence has zero sum of squared deviations, hence a
positive one forces at least one value. -/
lemma dropna_ne_nil_of_sumSqDev_pos {c : Column}
    (h : 0 < sumSqDev (dropna c)) : dropna c ≠ [] := by
  intro hnil
  rw [hnil, sumSqDev_nil] at h
  exact lt_irrefl 0 h

/-! ### Counting lemmas for `check_duplicates` -/

/-- In a duplicate-free list containing `a` with `p a` true, dropping `a`
from the filter predicate removes exactly one element. -/
lemma length_filter_of_mem_nodup {α} [DecidableEq α] {m : List α} {a : α}
    {p : α → Bool} (hm : m.Nodup) (ha : a ∈ m) (hpa : p a = true) :
    (m.filter p).length
      = (m.filter (fun x => p x && decide (x ≠ a))).length + 1 := by
  induction m with
  | nil => cases ha
  | cons b m' ih =>
    rw [List.nodup_cons] at hm
    obtain ⟨hb, hm'⟩ := hm
    rcases List.mem_cons.mp ha with rfl | ha'
    · rw [List.filter_cons_of_pos hpa, List.filter_cons_of_neg (by simp)]
      have hcongr : m'.filter (fun x => p x && decide (x ≠ a)) = m'.filter p := by
        apply List.filter_congr
        intro x hx
        have hxa : x ≠ a := fun h => hb (h ▸ hx)
        simp [hxa]
      rw [hcongr, List.length_cons]
    · have hba : b ≠ a := fun h => hb (h ▸ ha')
      by_cases hpb : p b = true
      · rw [List.filter_cons_of_pos hpb,
          List.filter_cons_of_pos (by simp [hpb, hba])]
        simp only [List.length_cons]
        rw [ih hm' ha']
      · rw [List.filter_cons_of_neg (by simp [hpb]),
          List.filter_cons_of_neg (by simp [hpb])]
        exact ih hm' ha'

/-- Membership in a seen-set extended by one of its own elements is
membership in the seen-set. -/
lemma not_mem_cons_iff_of_mem {α} {seen : List α} {a x : α} (ha : a ∈ seen) :
    (x ∉ a :: seen) ↔ (x ∉ seen) := by
  constructor
  · exact fun h hx => h (List.mem_cons_of_mem a hx)
  · intro h hmem
    rcases List.mem_cons.mp hmem with rfl | h2
    · exact h ha
    · exact h h2

/-- Invariant of the `duplicated` accumulator: the flagged rows plus the
distinct rows not yet seen make up the whole list. -/
lemma duplicatedGo_add (l : List (List Cell)) : ∀ seen,
    duplicatedGo seen l
      + ((l.dedup).filter (fun x => decide (x ∉ seen))).length = l.length := by
  induction l with
  | nil => intro seen; simp [duplicatedGo]
  | cons a rs ih =>
    intro seen
    unfold duplicatedGo
    by_cases ha : a ∈ seen
    · rw [if_pos ha]
      have hcongr : rs.dedup.filter (fun x => decide (x ∉ a :: seen))
          = rs.dedup.filter (fun x => decide (x ∉ seen)) :=
        List.filter_congr (fun x _ =>
          decide_eq_decide.mpr (not_mem_cons_iff_of_mem ha))
      have hfix : ((a :: rs).dedup.filter (fun x => decide (x ∉ seen))).length
          = (rs.dedup.filter (fun x => decide (x ∉ a :: seen))).length := by
        rw [hcongr]
        by_cases har : a ∈ rs
        · rw [List.dedup_cons_of_mem har]
        · rw [List.dedup_cons_of_not_mem har,
            List.filter_cons_of_neg (by simp [ha])]
      rw [hfix]
      have h2 := ih (a :: seen)
      simp only [List.length_cons]
      omega
    · rw [if_neg ha]
      have key : ((a :: rs).dedup.filter (fun x => decide (x ∉ seen))).length
          = (rs.dedup.filter (fun x => decide (x ∉ a :: seen))).length + 1 := by
        by_cases har : a ∈ rs
        · rw [List.dedup_cons_of_mem har]
          have hmem : a ∈ rs.dedup := List.mem_dedup.mpr har
          rw [length_filter_of_mem_nodup (List.nodup_dedup rs) hmem
            (p := fun x => decide (x ∉ seen)) (by simp [ha])]
          have hcongr : rs.dedup.filter
                (fun x => decide (x ∉ seen) && decide (x ≠ a))
              = rs.dedup.filter (fun x => decide (x ∉ a :: seen)) := by
            apply List.filter_congr
            intro x _
            by_cases hx1 : x = a <;> by_cases hx2 : x ∈ seen <;>
              simp [hx1, hx2, ha]
          rw [hcongr]
        · rw [List.dedup_cons_of_not_mem har,
            List.filter_cons_of_pos (by simp [ha])]
          simp only [List.length_cons]
          have hcongr : rs.dedup.filter (fun x => decide (x ∉ seen))
              = rs.dedup.filter (fun x => decide (x ∉ a :: seen)) := by
            apply List.filter_congr
            intro x hx
            have hxa : x ≠ a := fun h => har (h ▸ List.mem_dedup.mp hx)
            by_cases hx2 : x ∈ seen <;> simp [hx2, hxa]
          rw [hcongr]
      rw [key]
      have h2 := ih (a :: seen)
      simp only [List.length_cons]
      omega

/-- The count returned by `check_duplicates` plus the number of distinct
row tuples equals the number of rows. -/
lemma check_duplicates_add (t : Table) :
    check_duplicates t + (rows t).dedup.length = t.nrows := by
  have h := duplicatedGo_add (rows t) []
  have hfix : (rows t).dedup.filter
      (fun x => decide (x ∉ ([] : List (List Cell)))) = (rows t).dedup := by
    apply List.filter_eq_self.mpr
    intro a _
    simp
  rw [hfix] at h
  have hlen : (rows t).length = t.nrows := by simp [rows]
  rw [check_duplicates]
  omega

/-- A list with a repetition has strictly fewer distinct values than
elements. -/
lemma dedup_length_lt_of_not_nodup {α} [DecidableEq α] {l : List α}
    (h : ¬ l.Nodup) : l.dedup.length < l.length := by
  have hle := (List.dedup_sublist l).length_le
  rcases lt_or_eq_of_le hle with hlt | heq
  · exact hlt
  · exact absurd (List.dedup_eq_self.mp ((List.dedup_sublist l).eq_of_length heq)) h

/-! ### The z-score comparison over ℝ -/

/-- The squared comparison used by `isFlagged` expresses exactly the float
comparison `thresh < |a| / σ` with `σ = √(S / n)` the population standard
deviation, whenever `S > 0`, `n > 0` and `thresh > 0`. -/
lemma abs_div_sqrt_lt_iff (t a S : ℚ) (n : ℕ)
    (hS : 0 < S) (hn : 0 < n) (ht : 0 < t) :
    ((t : ℝ) < |(a : ℝ)| / Real.sqrt ((S : ℝ) / (n : ℝ))) ↔
      t ^ 2 * S < a ^ 2 * (n : ℚ) := by
  have hSr : (0:ℝ) < (S:ℝ) := by exact_mod_cast hS
  have hnr : (0:ℝ) < (n:ℝ) := by exact_mod_cast hn
  have hq : (0:ℝ) < (S:ℝ) / (n:ℝ) := div_pos hSr hnr
  have hs : 0 < Real.sqrt ((S:ℝ)/(n:ℝ)) := Real.sqrt_pos.mpr hq
  rw [lt_div_iff₀ hs]
  rw [show ((t:ℝ) * Real.sqrt ((S:ℝ)/(n:ℝ)) < |(a:ℝ)|) ↔
      ((t:ℝ) * Real.sqrt ((S:ℝ)/(n:ℝ))) ^ 2 < |(a:ℝ)| ^ 2 from
    (pow_lt_pow_iff_left₀ (by positivity) (abs_nonneg _) two_ne_zero).symm]
  rw [mul_pow, Real.sq_sqrt hq.le, sq_abs]
  rw [show (t:ℝ) ^ 2 * ((S:ℝ)/(n:ℝ)) = ((t:ℝ) ^ 2 * (S:ℝ)) / (n:ℝ) by ring]
  rw [div_lt_iff₀ hnr]
  constructor
  · intro h
    exact_mod_cast h
  · intro h
    exact_mod_cast h

/-- Distinct column names identify at most one column of the table. -/
lemma col_eq_of_name_eq {t : Table} (hnodup : (t.cols.map Column.name).Nodup)
    {c c' : Column} (hc : c ∈ t.cols) (hc' : c' ∈ t.cols)
    (h : c.name = c'.name) : c = c' :=
  List.inj_on_of_nodup_map hnodup hc hc' h

/-- A list with at most one element is its own deduplication. -/
lemma dedup_eq_self_of_len_le_one {α} [DecidableEq α] {l : List α}
    (h : l.length ≤ 1) : l.dedup = l := by
  match l with
  | [] => simp
  | [a] => rw [List.dedup_cons_of_not_mem (List.not_mem_nil a), List.dedup_nil]
  | a :: b :: r => exact absurd h (by simp)

/-! ### Claims -/

/-- Claim C1 (code bug): the spec demands the ORIGINAL row index of a
flagged value, but `np.where` over the z-scores of the `dropna`-reduced
array yields positions in the REDUCED sequence.  Failing input: column
A = [NaN, 0×10, 100] with z_thresh = 3.  The extreme value 100 sits at
original row index 11 (row 10 holds 0), yet `check_outliers` reports
index 10, its position after the NaN is dropped. -/
theorem C1_outlier_index_is_reduced_position :
    check_outliers tbl_nan 3 = [("A", [10])] ∧
      colA_nan.cells.getD 11 Cell.absent = Cell.num 100 ∧
      colA_nan.cells.getD 10 Cell.absent = Cell.num 0 := by
  refine ⟨?_, rfl, rfl⟩
  norm_num [check_outliers, tbl_nan, colA_nan, colOutlierIdxs, dropna,
    isFlagged, mean, sumSqDev, List.filterMap, List.filter, List.range,
    List.range.loop]

/-- Claim C2 (counterexample): with z_thresh = 29/10 on nine zeros and one
10, the code (population standard deviation, scipy's ddof = 0 default)
flags index 9, while the spec's rule with the SAMPLE standard deviation
flags nothing — so `check_outliers` does not implement the sample-σ rule
the claim states. -/
theorem C2_sample_std_counterexample :
    check_outliers tbl_ten (29/10) = [("A", [9])] ∧
      spec_check_outliers_sample tbl_ten (29/10) = [] := by
  constructor
  · norm_num [check_outliers, tbl_ten, colA_ten, colOutlierIdxs, dropna,
      isFlagged, mean, sumSqDev, List.filterMap, List.filter, List.range,
      List.range.loop]
  · norm_num [spec_check_outliers_sample, tbl_ten, colA_ten, dropna,
      specSampleFlagged, mean, sumSqDev, List.filterMap, List.filter,
      List.range, List.range.loop]

/-- Claim C2 (amended): for every numeric column of a table with distinct
column names whose reduced sequence has at least 2 values and nonzero
deviation, and every positive threshold, a reduced position `i` appears in
the column's outlier list exactly when `|v − μ| / σ > z_thresh`, where μ is
the mean and σ the POPULATION standard deviation `√(sumSqDev/n)` of the
reduced sequence (scipy `stats.zscore` default ddof = 0), v the value at
reduced position i. -/
theorem C2_population_zscore_flagging (t : Table) (thresh : ℚ) (c : Column)
    (i : ℕ) (hnodup : (t.cols.map Column.name).Nodup)
    (hc : c ∈ t.cols) (hnum : c.dtypeNum = true)
    (ht : 0 < thresh) (hlen : 2 ≤ (dropna c).length)
    (hS : 0 < sumSqDev (dropna c)) :
    (∃ l, (c.name, l) ∈ check_outliers t thresh ∧ i ∈ l) ↔
      (i < (dropna c).length ∧
        (thresh : ℝ) <
          |(((dropna c).getD i 0 - mean (dropna c) : ℚ) : ℝ)| /
            Real.sqrt ((sumSqDev (dropna c) : ℝ) / ((dropna c).length : ℝ))) := by
  have hn : 0 < (dropna c).length := lt_of_lt_of_le (by norm_num) hlen
  have hbridge := abs_div_sqrt_lt_iff thresh
    ((dropna c).getD i 0 - mean (dropna c)) (sumSqDev (dropna c))
    (dropna c).length hS hn ht
  constructor
  · rintro ⟨l, hmem, hil⟩
    obtain ⟨c', hc', hnum', hname, hidx, -⟩ := mem_check_outliers.mp hmem
    have hcc : c' = c := col_eq_of_name_eq hnodup hc' hc hname
    subst hcc
    rw [← hidx] at hil
    obtain ⟨hi, hflag⟩ := mem_colOutlierIdxs.mp hil
    exact ⟨hi, hbridge.mpr ((isFlagged_iff ht).mp hflag).2⟩
  · rintro ⟨hi, hz⟩
    have hflag : isFlagged (dropna c) thresh ((dropna c).getD i 0) = true :=
      (isFlagged_iff ht).mpr ⟨hS, hbridge.mp hz⟩
    have hmem : i ∈ colOutlierIdxs c thresh := mem_colOutlierIdxs.mpr ⟨hi, hflag⟩
    exact ⟨colOutlierIdxs c thresh,
      mem_check_outliers.mpr ⟨c, hc, hnum, rfl, rfl, List.ne_nil_of_mem hmem⟩,
      hmem⟩

/-- Witness for C2's amended theorem at `tbl_ten`, threshold 29/10,
position 9. -/
theorem C2_population_zscore_flagging_witness :
    (0 : ℚ) < 29/10 ∧
      (9 < (dropna colA_ten).length ∧
        ((29/10 : ℚ) : ℝ) <
          |(((dropna colA_ten).getD 9 0 - mean (dropna colA_ten) : ℚ) : ℝ)| /
            Real.sqrt ((sumSqDev (dropna colA_ten) : ℝ) /
              ((dropna colA_ten).length : ℝ))) :=
  ⟨by norm_num,
    (C2_population_zscore_flagging tbl_ten (29/10) colA_ten 9
      (by decide) (List.mem_singleton_self _) rfl (by norm_num)
      (by decide)
      (by norm_num [sumSqDev, mean, dropna, colA_ten, List.filterMap])).mp
      ⟨[9], by norm_num [check_outliers, tbl_ten, colA_ten, colOutlierIdxs,
          dropna, isFlagged, mean, sumSqDev, List.filterMap, List.filter,
          List.range, List.range.loop],
        List.mem_singleton_self _⟩⟩

/-- Claim C3 (counterexample): the source's `check_outliers` contains no
validation of `z_thresh` and no raise statement at all, so the claim that
`z_thresh ≤ 0` fails with InvalidParameter is false: at `z_thresh = −1`
the function returns an ordinary report (flagging every value, since
`|z| > −1` always holds). -/
theorem C3_no_invalid_parameter_counterexample :
    check_outliers tbl_two (-1) = [("A", [0, 1])] := by
  norm_num [check_outliers, tbl_two, colA_two, colOutlierIdxs, dropna,
    isFlagged, mean, sumSqDev, List.filterMap, List.filter, List.range,
    List.range.loop]

/-- Claim C3 (amended): `check_outliers` performs no threshold validation
and never fails — it is a total function of the table and `z_thresh`.  For
a negative threshold it returns a report flagging every reduced position of
every numeric column with nonzero deviation. -/
theorem C3_negative_thresh_flags_all (t : Table) (thresh : ℚ) (c : Column)
    (hthresh : thresh < 0) (hc : c ∈ t.cols) (hnum : c.dtypeNum = true)
    (hS : 0 < sumSqDev (dropna c)) :
    (c.name, List.range (dropna c).length) ∈ check_outliers t thresh := by
  have hr := colOutlierIdxs_eq_range (c := c) hthresh hS
  apply mem_check_outliers.mpr
  refine ⟨c, hc, hnum, rfl, hr, ?_⟩
  have hne : dropna c ≠ [] := dropna_ne_nil_of_sumSqDev_pos hS
  have hn : 0 < (dropna c).length := List.length_pos.mpr hne
  intro hnil
  rw [List.range_eq_nil] at hnil
  omega

/-- Witness for C3's amended theorem at `tbl_two`, threshold −1. -/
theorem C3_negative_thresh_flags_all_witness :
    ((-1 : ℚ) < 0) ∧ ("A", List.range 2) ∈ check_outliers tbl_two (-1) :=
  ⟨by norm_num,
    C3_negative_thresh_flags_all tbl_two (-1) colA_two (by norm_num)
      (List.mem_singleton_self _) rfl
      (by norm_num [sumSqDev, mean, dropna, colA_two, List.filterMap])⟩

/-- Claim C4: a numeric column whose reduced sequence has fewer than two
values, or zero sum of squared deviations (zero standard deviation), never
appears in the outlier report; `check_outliers` is total, so no failure
arises either. -/
theorem C4_degenerate_column_omitted (t : Table) (thresh : ℚ) (c : Column)
    (hnodup : (t.cols.map Column.name).Nodup) (hc : c ∈ t.cols)
    (h : (dropna c).length < 2 ∨ sumSqDev (dropna c) = 0) :
    ∀ l, (c.name, l) ∉ check_outliers t thresh := by
  have hS : ¬ 0 < sumSqDev (dropna c) := by
    rcases h with h | h
    · rw [sumSqDev_eq_zero_of_len_le_one (by omega)]
      exact lt_irrefl 0
    · rw [h]
      exact lt_irrefl 0
  intro l hmem
  obtain ⟨c', hc', hnum', hname, hidx, hne⟩ := mem_check_outliers.mp hmem
  have hcc : c' = c := col_eq_of_name_eq hnodup hc' hc hname
  subst hcc
  exact hne (by rw [← hidx, colOutlierIdxs_eq_nil hS])

/-- Witness for C4 at the constant column `tbl_const`. -/
theorem C4_degenerate_column_omitted_witness :
    sumSqDev (dropna colA_const) = 0 ∧
      ("A", [0]) ∉ check_outliers tbl_const 3 :=
  ⟨by norm_num [sumSqDev, mean, dropna, colA_const, List.filterMap],
    C4_degenerate_column_omitted tbl_const 3 colA_const (by decide)
      (List.mem_singleton_self _)
      (Or.inr (by norm_num [sumSqDev, mean, dropna, colA_const, List.filterMap])) [0]⟩

/-- Claim C5: the duplicate count equals the number of rows minus the
number of distinct row-value tuples (rows compare positionally across all
columns, first occurrences never counted), and a table with at most one
row yields count 0. -/
theorem C5_duplicate_count (t : Table) :
    check_duplicates t = t.nrows - (rows t).dedup.length ∧
      (t.nrows ≤ 1 → check_duplicates t = 0) := by
  have h := check_duplicates_add t
  have hlen : (rows t).length = t.nrows := by simp [rows]
  constructor
  · omega
  · intro h1
    have hle : (rows t).length ≤ 1 := by omega
    have hded := congrArg List.length (dedup_eq_self_of_len_le_one hle)
    omega

/-- Witness for C5's one-row clause at `tbl_one`. -/
theorem C5_duplicate_count_witness :
    tbl_one.nrows ≤ 1 ∧ check_duplicates tbl_one = 0 :=
  ⟨by decide, (C5_duplicate_count tbl_one).2 (by decide)⟩

/-- Claim C6: the missing-value report has exactly one entry per column in
the table's column order, every count lies in [0, row count] for a
well-formed table, and an empty table yields all-zero counts; the function
is total, so it never fails. -/
theorem C6_missing_value_report (t : Table) (hwf : WF t) :
    (check_missing_values t).map Prod.fst = t.cols.map Column.name ∧
      (∀ p ∈ check_missing_values t, p.2 ≤ t.nrows) ∧
      (t.nrows = 0 → ∀ p ∈ check_missing_values t, p.2 = 0) := by
  refine ⟨?_, ?_, ?_⟩
  · unfold check_missing_values
    rw [List.map_map]
    rfl
  · intro p hp
    obtain ⟨c, hc, rfl⟩ := List.mem_map.mp hp
    exact (List.count_le_length _ _).trans (le_of_eq (hwf c hc))
  · intro h0 p hp
    obtain ⟨c, hc, rfl⟩ := List.mem_map.mp hp
    have hlen : c.cells.length = 0 := by rw [hwf c hc, h0]
    have hnil : c.cells = [] := List.length_eq_zero.mp hlen
    simp [hnil]

/-- Witness for C6 at the one-row table. -/
theorem C6_missing_value_report_witness :
    (check_missing_values tbl_one).map Prod.fst
        = tbl_one.cols.map Column.name ∧
      (∀ p ∈ check_missing_values tbl_one, p.2 ≤ tbl_one.nrows) ∧
      (tbl_one.nrows = 0 → ∀ p ∈ check_missing_values tbl_one, p.2 = 0) :=
  C6_missing_value_report tbl_one (by
    intro c hc
    rcases List.mem_singleton.mp hc with rfl
    rfl)

/-- Claim C7: no entry of the outlier report carries an empty index list,
and a numeric column whose computation produces no outliers is entirely
absent as a key of the report. -/
theorem C7_zero_outlier_columns_absent (t : Table) (thresh : ℚ) (c : Column)
    (hnodup : (t.cols.map Column.name).Nodup) (hc : c ∈ t.cols)
    (hz : colOutlierIdxs c thresh = []) :
    (∀ l, (c.name, l) ∉ check_outliers t thresh) ∧
      (∀ p ∈ check_outliers t thresh, p.2 ≠ []) := by
  constructor
  · intro l hmem
    obtain ⟨c', hc', _, hname, hidx, hne⟩ := mem_check_outliers.mp hmem
    have hcc : c' = c := col_eq_of_name_eq hnodup hc' hc hname
    subst hcc
    exact hne (by rw [← hidx, hz])
  · intro p hp
    have hp' : (p.1, p.2) ∈ check_outliers t thresh := by simpa using hp
    obtain ⟨_, _, _, _, _, hne⟩ := mem_check_outliers.mp hp'
    exact hne

/-- Witness for C7 at the constant column, threshold 3. -/
theorem C7_zero_outlier_columns_absent_witness :
    ("A", [0]) ∉ check_outliers tbl_const 3 :=
  (C7_zero_outlier_columns_absent tbl_const 3 colA_const (by decide)
    (List.mem_singleton_self _)
    (colOutlierIdxs_eq_nil (by norm_num [sumSqDev, mean, dropna, colA_const,
      List.filterMap]))).1 [0]

/-- Claim C8: the fixed section order of the rendered report — the header,
then Missing Values, then `Duplicate Rows: <count>`, then `Outliers:` —
holds for every input, and on MissingValueReport {A:1, B:0}, duplicate
count 1 and an empty OutlierReport the rendered text is exactly the
document containing the line `Duplicate Rows: 1` and a final `Outliers:`
header with nothing beneath it. -/
theorem C8_report_section_order :
    (∀ (mv : List (String × ℕ)) (dc : ℕ) (outs : List (String × List ℕ)),
      ∃ s1 s3, generate_report mv dc outs
        = "Data Integrity Report\n" ++ "=====================\n"
          ++ "Missing Values:\n" ++ s1 ++ "\n\n"
          ++ "Duplicate Rows: " ++ toString dc ++ "\n\n"
          ++ "Outliers:\n" ++ s3) ∧
      generate_report [("A", 1), ("B", 0)] 1 []
        = "Data Integrity Report\n=====================\nMissing Values:\nA    1\nB    0\n\nDuplicate Rows: 1\n\nOutliers:\n" := by
  constructor
  · intro mv dc outs
    exact ⟨seriesToString mv, _, rfl⟩
  · rfl

/-- Claim C9: two rows that agree positionally on every column — absent
entries included, which compare equal to each other under pandas row
hashing — make `check_duplicates` count at least one duplicate. -/
theorem C9_absent_equal_rows_duplicate (t : Table) (i j : ℕ)
    (hij : i < j) (hj : j < t.nrows)
    (heq : (rows t).getD i [] = (rows t).getD j []) :
    1 ≤ check_duplicates t := by
  have hlen : (rows t).length = t.nrows := by simp [rows]
  have hi' : i < (rows t).length := by omega
  have hj' : j < (rows t).length := by omega
  have hgel : (rows t).get ⟨i, hi'⟩ = (rows t).get ⟨j, hj'⟩ := by
    have e1 : (rows t).getD i [] = (rows t).get ⟨i, hi'⟩ := by
      simp [List.getElem?_eq_getElem hi']
    have e2 : (rows t).getD j [] = (rows t).get ⟨j, hj'⟩ := by
      simp [List.getElem?_eq_getElem hj']
    rw [← e1, ← e2]
    exact heq
  have hnd : ¬ (rows t).Nodup := by
    intro hn
    have hFin := (hn.get_inj_iff).mp hgel
    have hval : i = j := congrArg Fin.val hFin
    omega
  have hded := dedup_length_lt_of_not_nodup hnd
  have hadd := check_duplicates_add t
  omega

/-- Witness for C9 at the table whose two rows agree including their
absent entries. -/
theorem C9_absent_equal_rows_duplicate_witness :
    1 ≤ check_duplicates tbl_nanrows :=
  C9_absent_equal_rows_duplicate tbl_nanrows 0 1 (by norm_num) (by decide)
    (by decide)

/-- Claim C10: every entry of the outlier report comes from a numeric
column of the table, its index list is strictly ascending, and every index
is a position of the column's reduced (absent-entries-removed) sequence,
i.e. lies in [0, n) for n the reduced length. -/
theorem C10_indices_sorted_bounded (t : Table) (thresh : ℚ)
    (p : String × List ℕ) (hp : p ∈ check_outliers t thresh) :
    ∃ c, c ∈ t.cols ∧ c.dtypeNum = true ∧ c.name = p.1 ∧
      List.Pairwise (· < ·) p.2 ∧ ∀ i ∈ p.2, i < (dropna c).length := by
  have hp' : (p.1, p.2) ∈ check_outliers t thresh := by simpa using hp
  obtain ⟨c, hc, hnum, hname, hidx, -⟩ := mem_check_outliers.mp hp'
  refine ⟨c, hc, hnum, hname, ?_, ?_⟩
  · rw [← hidx]
    unfold colOutlierIdxs
    exact List.Pairwise.filter _ (List.pairwise_lt_range _)
  · intro i hi
    rw [← hidx] at hi
    exact (mem_colOutlierIdxs.mp hi).1

/-- Witness for C10 at `tbl_nan`, threshold 3, entry ("A", [10]). -/
theorem C10_indices_sorted_bounded_witness :
    ∃ c, c ∈ tbl_nan.cols ∧ c.dtypeNum = true ∧ c.name = "A" ∧
      List.Pairwise (· < ·) [10] ∧ ∀ i ∈ [10], i < (dropna c).length :=
  C10_indices_sorted_bounded tbl_nan 3 ("A", [10])
    (by norm_num [check_outliers, tbl_nan, colA_nan, colOutlierIdxs, dropna,
      isFlagged, mean, sumSqDev, List.filterMap, List.filter, List.range,
      List.range.loop])

end Scanner
